import Mathlib

/-!
Verification of the Error Diffusion (ED) neural-network engine from the
edla-rs repository (directory src/ed_reworked).  The C sources are shallowly
embedded: machine doubles become real numbers, the fixed-size global arrays
become total functions over natural-number indices, and the `random()`
stream is modelled as an arbitrary family of draw values `r n c s k`
(network, target, source, draw slot); any concrete run of the C program
induces such a family, and any family is realised by a suitable `rand()`
sequence.  The four engine operations `init_network`, `calculate_output`,
`calculate_learning` and `calculate_weight` are translated from
ed_init_network.c, ed_calculation_output.c, ed_calculation_learning.c and
ed_calculation_weight.c respectively, preserving loop structure (the weight
update is a left fold over the loop's (network, target, source) triples in
source order) and the exact order of the initialisation rules.
-/

/-- Configuration of the network, mirroring the globals set before and by
`init_network`: dimensions, the `config_flags` entries the engine reads
(3 = self-loop cutting, 6 = loop cutting, 7 = multi-layer, 10 = bidirectional
update mode, 11 = inhibitory inputs enabled) and the numeric parameters. -/
structure EDParams where
  size_input : ℕ
  size_output : ℕ
  size_hidden1 : ℕ
  size_hidden2 : ℕ
  flag3 : Bool
  flag6 : Bool
  flag7 : Bool
  flag10 : Bool
  flag11 : Bool
  init_range_weight : ℝ
  init_range_threshold : ℝ
  learning_rate : ℝ
  bias : ℝ
  sigmoid_steepness : ℝ
  error_amplification : ℝ
  timesteps : ℕ

/-- `size_hidden = init_hidden + init_hidden2` as assigned in init_network. -/
def EDParams.size_hidden (p : EDParams) : ℕ := p.size_hidden1 + p.size_hidden2

/-- `total_neurons = size_input + 1 + size_hidden` as assigned in init_network. -/
def EDParams.total_neurons (p : EDParams) : ℕ := p.size_input + 1 + p.size_hidden

/-- The mutable engine state: activation arrays, the two-channel error table,
the weight matrix, the polarity vector `weights_oscillating` and the two
error counters.  Indexing follows the C arrays:
`neuron_input n c` is `neuron_input[n][c]`, `error_delta n c ch` is
`error_delta[n][c][ch]` (ch = 0 excitatory, 1 inhibitory), and
`weights n c s` is `weights[n][c][s]` (target c, source s). -/
structure EDState where
  neuron_input : ℕ → ℕ → ℝ
  neuron_output : ℕ → ℕ → ℝ
  error_delta : ℕ → ℕ → ℕ → ℝ
  weights : ℕ → ℕ → ℕ → ℝ
  weights_oscillating : ℕ → ℝ
  error_total : ℝ
  error_count : ℕ

/-- The all-zero state: C global arrays are zero-initialised at program
start, so this is the state in which `init_network` is first called. -/
def zeroState : EDState where
  neuron_input := fun _ _ => 0
  neuron_output := fun _ _ => 0
  error_delta := fun _ _ _ => 0
  weights := fun _ _ _ => 0
  weights_oscillating := fun _ => 0
  error_total := 0
  error_count := 0

/-- Value of `weights_oscillating[c]` after the assignment loop of
init_network: the alternating formula `((c + 1) % 2) * 2 - 1`, with the
output neuron `size_input + 2` overwritten to `+1`. -/
def oscInit (p : EDParams) (c : ℕ) : ℝ :=
  if c = p.size_input + 2 then 1 else (((c + 1) % 2 : ℕ) : ℝ) * 2 - 1

/-- The magnitude part of the weight written by init_network at cell
(target c, source s), before the final multiplication by the polarity
product: the eight guarded assignments of ed_init_network.c in source
order, with `r k` the k-th potential random draw for this cell. -/
def initWeightMag (p : EDParams) (r : ℕ → ℝ) (c s : ℕ) : ℝ :=
  let w0 : ℝ := if s < 2 then p.init_range_threshold * r 0 else p.init_range_weight * r 1
  let w1 : ℝ := if p.total_neurons + 1 - p.size_hidden2 < c ∧ s < p.size_input + 2 ∧ 2 ≤ s
    then 0 else w0
  let w2 : ℝ := if p.flag6 = true ∧ c ≠ s ∧ p.size_input + 2 < c ∧ p.size_input + 1 < s
    then 0 else w1
  let w3 : ℝ := if p.flag6 = true ∧ p.size_input + 1 < c ∧ p.size_input + 1 < s ∧
      s < p.size_input + 3 then 0 else w2
  let w4 : ℝ := if p.flag7 = true ∧ 2 ≤ s ∧ s < p.size_input + 2 ∧ p.size_input + 2 ≤ c ∧
      c < p.size_input + 3 then 0 else w3
  let w5 : ℝ := if p.total_neurons + 1 - p.size_hidden2 < c ∧ p.size_input + 3 ≤ s
    then p.init_range_weight * r 2 else w4
  let w6 : ℝ := if c = s then (if p.flag3 = true then 0 else p.init_range_weight * r 3) else w5
  if p.flag11 = false ∧ s < p.size_input + 2 ∧ s % 2 = 1 then 0 else w6

/-- The weight written by init_network at cell (target c, source s): the
magnitude multiplied by `weights_oscillating[s] * weights_oscillating[c]`. -/
def initWeight (p : EDParams) (r : ℕ → ℝ) (c s : ℕ) : ℝ :=
  initWeightMag p r c s * (oscInit p s * oscInit p c)

/-- `init_network`: writes the polarity vector (when at least one output
network exists), the weight matrix for every network and every target in
`size_input + 2 .. total_neurons + 1` and source in `0 .. total_neurons + 1`,
sets the two bias inputs of every network to `bias`, and resets the error
counters.  All other state is left untouched. -/
def init_network (p : EDParams) (r : ℕ → ℕ → ℕ → ℕ → ℝ) (st : EDState) : EDState :=
  { st with
    weights_oscillating := fun c =>
      if 0 < p.size_output ∧ c ≤ p.total_neurons + 1 then oscInit p c
      else st.weights_oscillating c
    weights := fun n c s =>
      if n < p.size_output ∧ p.size_input + 2 ≤ c ∧ c ≤ p.total_neurons + 1 ∧
          s ≤ p.total_neurons + 1
      then initWeight p (r n c s) c s else st.weights n c s
    neuron_input := fun n c =>
      if n < p.size_output ∧ c < 2 then p.bias else st.neuron_input n c
    error_total := 0
    error_count := 0 }

/-- The activation function of ed_main.c:
`sigmoid(x) = 1 / (1 + exp(-2 * x / sigmoid_steepness))`. -/
noncomputable def sigmoid (p : EDParams) (x : ℝ) : ℝ :=
  1 / (1 + Real.exp (-2 * x / p.sigmoid_steepness))

/-- One recurrent timestep of the forward pass for one network, acting on
the pair (neuron_input, neuron_output): every target in
`size_input + 2 .. total_neurons + 1` gets the sigmoid of its weighted sum
over all sources `0 .. total_neurons + 1`, computed from the inputs at the
start of the timestep; afterwards the new outputs of that range are copied
back into the inputs. -/
noncomputable def forwardTimestep (p : EDParams) (W : ℕ → ℕ → ℝ)
    (io : (ℕ → ℝ) × (ℕ → ℝ)) : (ℕ → ℝ) × (ℕ → ℝ) :=
  let newOut : ℕ → ℝ := fun c =>
    if p.size_input + 2 ≤ c ∧ c ≤ p.total_neurons + 1 then
      sigmoid p (∑ s ∈ Finset.range (p.total_neurons + 2), W c s * io.1 s)
    else io.2 c
  (fun c => if p.size_input + 2 ≤ c ∧ c ≤ p.total_neurons + 1 then newOut c else io.1 c,
    newOut)

/-- The forward pass of `calculate_output` for one network: distribute the
input pattern to the excitatory/inhibitory pairs (`neuron_input[c] :=
pattern[c / 2 - 1]` for `2 ≤ c ≤ size_input + 1`), zero the hidden inputs
when loop cutting is enabled, then run `timesteps` recurrent timesteps. -/
noncomputable def forwardNet (p : EDParams) (W : ℕ → ℕ → ℝ) (pat : ℕ → ℝ)
    (inp outp : ℕ → ℝ) : (ℕ → ℝ) × (ℕ → ℝ) :=
  let inp0 : ℕ → ℝ := fun c => if 2 ≤ c ∧ c ≤ p.size_input + 1 then pat (c / 2 - 1) else inp c
  let inp1 : ℕ → ℝ := fun c =>
    if p.flag6 = true ∧ p.size_input + 2 ≤ c ∧ c ≤ p.total_neurons + 1 then 0 else inp0 c
  (forwardTimestep p W)^[p.timesteps] (inp1, outp)

/-- `calculate_output`: runs the forward pass on every output network;
weights, polarity, error table and counters are untouched. -/
noncomputable def calculate_output (p : EDParams) (pat : ℕ → ℝ) (st : EDState) : EDState :=
  { st with
    neuron_input := fun n c =>
      if n < p.size_output then
        (forwardNet p (st.weights n) pat (st.neuron_input n) (st.neuron_output n)).1 c
      else st.neuron_input n c
    neuron_output := fun n c =>
      if n < p.size_output then
        (forwardNet p (st.weights n) pat (st.neuron_input n) (st.neuron_output n)).2 c
      else st.neuron_output n c }

/-- Body of the per-network loop of `calculate_learning` for network `j`:
compute the prediction error against the network's output neuron, update
the two error counters, split the error into the excitatory/inhibitory
channel pair, store the pair at the output neuron's slot and broadcast it,
multiplied by `error_amplification`, to every hidden slot
`size_input + 3 .. total_neurons + 1`. -/
noncomputable def learnNetwork (p : EDParams) (tgt : ℕ → ℝ) (st : EDState) (j : ℕ) :
    EDState :=
  let e : ℝ := tgt j - st.neuron_output j (p.size_input + 2)
  let exc : ℝ := if e > 0 then e else 0
  let inh : ℝ := if e > 0 then 0 else -e
  { st with
    error_total := st.error_total + |e|
    error_count := if |e| > 0.5 then st.error_count + 1 else st.error_count
    error_delta := fun n c ch =>
      if n = j ∧ c = p.size_input + 2 ∧ ch = 0 then exc
      else if n = j ∧ c = p.size_input + 2 ∧ ch = 1 then inh
      else if n = j ∧ p.size_input + 3 ≤ c ∧ c ≤ p.total_neurons + 1 ∧ ch = 0 then
        exc * p.error_amplification
      else if n = j ∧ p.size_input + 3 ≤ c ∧ c ≤ p.total_neurons + 1 ∧ ch = 1 then
        inh * p.error_amplification
      else st.error_delta n c ch }

/-- `calculate_learning`: the per-network error diffusion loop over
networks `0 .. size_output - 1` in source order. -/
noncomputable def calculate_learning (p : EDParams) (tgt : ℕ → ℝ) (st : EDState) : EDState :=
  (List.range p.size_output).foldl (learnNetwork p tgt) st

/-- The target-neuron index list of the weight-update loop:
`size_input + 2 .. total_neurons + 1` in source order. -/
def cList (p : EDParams) : List ℕ :=
  (List.range (p.size_hidden + 1)).map (fun i => p.size_input + 2 + i)

/-- The (network, target, source) triples visited by the loops of
`calculate_weight`, in source order: networks outermost, then targets
`size_input + 2 .. total_neurons + 1`, then sources `0 .. total_neurons + 1`. -/
def pairList (p : EDParams) : List (ℕ × ℕ × ℕ) :=
  List.range p.size_output ×ˢ (cList p ×ˢ List.range (p.total_neurons + 2))

/-- The new value of the weight at cell (network n, target c, source s)
with old value `w`, per the body of `calculate_weight`: untouched when
exactly zero; otherwise incremented by the ED rule, reading only the
activation arrays, error table and polarity vector of the snapshot `st`
and the old value `w` itself. -/
noncomputable def weightUpdateCell (p : EDParams) (st : EDState) (n c s : ℕ) (w : ℝ) : ℝ :=
  if w ≠ 0 then
    let delta : ℝ := p.learning_rate * st.neuron_input n s *
      |st.neuron_output n c| * (1 - |st.neuron_output n c|)
    if p.flag10 = true then
      w + delta * st.weights_oscillating c * (st.error_delta n c 0 - st.error_delta n c 1)
    else if st.weights_oscillating s > 0 then
      w + delta * st.error_delta n c 0 * st.weights_oscillating s * st.weights_oscillating c
    else
      w + delta * st.error_delta n c 1 * st.weights_oscillating s * st.weights_oscillating c
  else w

/-- One iteration of the weight-update loop: rewrite the single cell named
by the triple `q`, leaving every other cell of the matrix unchanged. -/
noncomputable def updateCellStep (p : EDParams) (st : EDState)
    (W : ℕ → ℕ → ℕ → ℝ) (q : ℕ × ℕ × ℕ) : ℕ → ℕ → ℕ → ℝ :=
  fun n c s =>
    if n = q.1 ∧ c = q.2.1 ∧ s = q.2.2 then weightUpdateCell p st n c s (W n c s)
    else W n c s

/-- `calculate_weight`: fold the per-cell update over the loop triples in
source order.  Only the weight matrix changes. -/
noncomputable def calculate_weight (p : EDParams) (st : EDState) : EDState :=
  { st with weights := (pairList p).foldl (updateCellStep p st) st.weights }

/-- States reachable by the program: `init_network` from the zero-initialised
globals, followed by any sequence of forward passes (arbitrary input
patterns), error-diffusion passes (arbitrary targets) and weight updates. -/
inductive EDReachable (p : EDParams) : EDState → Prop
  | base (r : ℕ → ℕ → ℕ → ℕ → ℝ) : EDReachable p (init_network p r zeroState)
  | forward {st : EDState} (pat : ℕ → ℝ) :
      EDReachable p st → EDReachable p (calculate_output p pat st)
  | learn {st : EDState} (tgt : ℕ → ℝ) :
      EDReachable p st → EDReachable p (calculate_learning p tgt st)
  | update {st : EDState} : EDReachable p st → EDReachable p (calculate_weight p st)

/-- Reachability restricted to nonnegative random draws (as produced by the
program's `random()`, whose values lie in [0, 1)) and nonnegative input
patterns. -/
inductive EDReachableNonneg (p : EDParams) : EDState → Prop
  | base (r : ℕ → ℕ → ℕ → ℕ → ℝ) (hr : ∀ n c s k, 0 ≤ r n c s k) :
      EDReachableNonneg p (init_network p r zeroState)
  | forward {st : EDState} (pat : ℕ → ℝ) (hpat : ∀ k, 0 ≤ pat k) :
      EDReachableNonneg p st → EDReachableNonneg p (calculate_output p pat st)
  | learn {st : EDState} (tgt : ℕ → ℝ) :
      EDReachableNonneg p st → EDReachableNonneg p (calculate_learning p tgt st)
  | update {st : EDState} : EDReachableNonneg p st → EDReachableNonneg p (calculate_weight p st)

/-- The error-channel pair written for network `n` by `calculate_learning`
when `n < size_output`, expressed over the pre-call state: the split of
`tgt n - neuron_output n (size_input + 2)` at the output slot, amplified at
the hidden slots, with every other slot untouched. -/
noncomputable def deltaAfterLearn (p : EDParams) (tgt : ℕ → ℝ) (st : EDState)
    (n c ch : ℕ) : ℝ :=
  let e : ℝ := tgt n - st.neuron_output n (p.size_input + 2)
  let exc : ℝ := if e > 0 then e else 0
  let inh : ℝ := if e > 0 then 0 else -e
  if c = p.size_input + 2 ∧ ch = 0 then exc
  else if c = p.size_input + 2 ∧ ch = 1 then inh
  else if p.size_input + 3 ≤ c ∧ c ≤ p.total_neurons + 1 ∧ ch = 0 then
    exc * p.error_amplification
  else if p.size_input + 3 ≤ c ∧ c ≤ p.total_neurons + 1 ∧ ch = 1 then
    inh * p.error_amplification
  else st.error_delta n c ch

/-- The weight-sign invariant of the spec: every weight of the updated
range is zero or carries the sign of the polarity product of its endpoints. -/
def SignOK (p : EDParams) (st : EDState) : Prop :=
  ∀ n c s, n < p.size_output → p.size_input + 2 ≤ c → c ≤ p.total_neurons + 1 →
    s ≤ p.total_neurons + 1 →
    st.weights n c s = 0 ∨
      Real.sign (st.weights n c s) = st.weights_oscillating s * st.weights_oscillating c

/-- Auxiliary invariant carried through the reachability induction: the
sign condition together with nonnegative activations (outputs within
[0, 1]) and nonnegative error channels. -/
def GoodState (p : EDParams) (st : EDState) : Prop :=
  SignOK p st ∧ (∀ n c, 0 ≤ st.neuron_input n c) ∧
    (∀ n c, 0 ≤ st.neuron_output n c ∧ st.neuron_output n c ≤ 1) ∧
    (∀ n c ch, 0 ≤ st.error_delta n c ch)

/-- Loop-cutting configuration with a second hidden layer: 2 (doubled)
inputs, 1 output, first hidden layer of size 1, second hidden layer of
size 1, so `total_neurons = 5`, the output neuron is index 4, the hidden
neurons are indices 5 and 6 and index 6 forms the second layer. -/
def pC1 : EDParams where
  size_input := 2
  size_output := 1
  size_hidden1 := 1
  size_hidden2 := 1
  flag3 := false
  flag6 := true
  flag7 := false
  flag10 := false
  flag11 := true
  init_range_weight := 2
  init_range_threshold := 2
  learning_rate := 1
  bias := 0
  sigmoid_steepness := 1
  error_amplification := 1
  timesteps := 1

/-- Random-draw family with every draw `1/2` (a value `random()` attains). -/
noncomputable def rC1 : ℕ → ℕ → ℕ → ℕ → ℝ := fun _ _ _ _ => 1 / 2

/-- Small configuration without flags: 2 inputs, 1 output, 1 hidden
neuron, so `total_neurons = 4`, output neuron 4, hidden neuron 5. -/
def pC2 : EDParams where
  size_input := 2
  size_output := 1
  size_hidden1 := 1
  size_hidden2 := 0
  flag3 := false
  flag6 := false
  flag7 := false
  flag10 := false
  flag11 := true
  init_range_weight := 1
  init_range_threshold := 1
  learning_rate := 1
  bias := 0
  sigmoid_steepness := 1
  error_amplification := 1
  timesteps := 1

/-- Configuration for the sign-invariant counterexample: selective mode
with a negative learning rate (the claim does not constrain it), nonnegative
weight and threshold ranges, one timestep. -/
def pC3 : EDParams where
  size_input := 2
  size_output := 1
  size_hidden1 := 1
  size_hidden2 := 0
  flag3 := false
  flag6 := false
  flag7 := false
  flag10 := false
  flag11 := true
  init_range_weight := 2
  init_range_threshold := 2
  learning_rate := -8
  bias := 0
  sigmoid_steepness := 1
  error_amplification := 1
  timesteps := 1

/-- Random-draw family with every draw `1/2`, for the C3 run. -/
noncomputable def rC3 : ℕ → ℕ → ℕ → ℕ → ℝ := fun _ _ _ _ => 1 / 2

/-- The all-zero input pattern of the C3 run. -/
def patC3 : ℕ → ℝ := fun _ => 0

/-- The target pattern of the C3 run: constant `-3/2`. -/
noncomputable def tgtC3 : ℕ → ℝ := fun _ => -(3 / 2)

/-- State of the C3 run after initialisation from the zero state. -/
noncomputable def stC3a : EDState := init_network pC3 rC3 zeroState

/-- State of the C3 run after the forward pass on the all-zero pattern. -/
noncomputable def stC3b : EDState := calculate_output pC3 patC3 stC3a

/-- State of the C3 run after the error-diffusion pass. -/
noncomputable def stC3c : EDState := calculate_learning pC3 tgtC3 stC3b

/-- The C3 run: initialise from the zero state, one forward pass, one
error-diffusion pass, one weight update. -/
noncomputable def stC3 : EDState := calculate_weight pC3 stC3c

/-- The C3 configuration with the learning rate made nonnegative, used to
witness the amended invariant. -/
def pC3w : EDParams where
  size_input := 2
  size_output := 1
  size_hidden1 := 1
  size_hidden2 := 0
  flag3 := false
  flag6 := false
  flag7 := false
  flag10 := false
  flag11 := true
  init_range_weight := 2
  init_range_threshold := 2
  learning_rate := 1
  bias := 0
  sigmoid_steepness := 1
  error_amplification := 1
  timesteps := 1

/-- Random-draw family with every draw `1/2`, for the C3 witness. -/
noncomputable def rC3w : ℕ → ℕ → ℕ → ℕ → ℝ := fun _ _ _ _ => 1 / 2

/-- Small flag-free configuration for the C4 witness. -/
def pC4 : EDParams where
  size_input := 2
  size_output := 1
  size_hidden1 := 1
  size_hidden2 := 0
  flag3 := false
  flag6 := false
  flag7 := false
  flag10 := false
  flag11 := true
  init_range_weight := 1
  init_range_threshold := 1
  learning_rate := 1
  bias := 0
  sigmoid_steepness := 1
  error_amplification := 1
  timesteps := 1

/-- Small selective-mode configuration for the C5 witness. -/
def pC5 : EDParams where
  size_input := 2
  size_output := 1
  size_hidden1 := 1
  size_hidden2 := 0
  flag3 := false
  flag6 := false
  flag7 := false
  flag10 := false
  flag11 := true
  init_range_weight := 1
  init_range_threshold := 1
  learning_rate := 1
  bias := 0
  sigmoid_steepness := 1
  error_amplification := 1
  timesteps := 1

/-- A concrete snapshot for the C5 witness: all weights 1, all polarities
excitatory, inputs 1, outputs 1/2, both error channels 1. -/
noncomputable def stC5 : EDState where
  neuron_input := fun _ _ => 1
  neuron_output := fun _ _ => 1 / 2
  error_delta := fun _ _ _ => 1
  weights := fun _ _ _ => 1
  weights_oscillating := fun _ => 1
  error_total := 0
  error_count := 0

/-- Small configuration for the C6 witness. -/
def pC6 : EDParams where
  size_input := 2
  size_output := 1
  size_hidden1 := 1
  size_hidden2 := 0
  flag3 := false
  flag6 := false
  flag7 := false
  flag10 := false
  flag11 := true
  init_range_weight := 1
  init_range_threshold := 1
  learning_rate := 1
  bias := 0
  sigmoid_steepness := 1
  error_amplification := 1
  timesteps := 1

/-- Constant target pattern 1 for the C6 witness. -/
def tgtC6 : ℕ → ℝ := fun _ => 1

/-- Small configuration for the C7 witness (amplification 3 to make the
broadcast scaling visible). -/
def pC7 : EDParams where
  size_input := 2
  size_output := 1
  size_hidden1 := 1
  size_hidden2 := 0
  flag3 := false
  flag6 := false
  flag7 := false
  flag10 := false
  flag11 := true
  init_range_weight := 1
  init_range_threshold := 1
  learning_rate := 1
  bias := 0
  sigmoid_steepness := 1
  error_amplification := 3
  timesteps := 1

/-- Constant target pattern 1 for the C7 witness. -/
def tgtC7 : ℕ → ℝ := fun _ => 1

/-- A structurally invalid configuration: `size_input = 3` is odd, which
violates the even-input invariant the claim says `initialize` must reject. -/
def pC8 : EDParams where
  size_input := 3
  size_output := 1
  size_hidden1 := 1
  size_hidden2 := 0
  flag3 := false
  flag6 := false
  flag7 := false
  flag10 := false
  flag11 := true
  init_range_weight := 2
  init_range_threshold := 2
  learning_rate := 1
  bias := 0
  sigmoid_steepness := 1
  error_amplification := 1
  timesteps := 1

/-- Random-draw family with every draw `1/2`, for the C8 run. -/
noncomputable def rC8 : ℕ → ℕ → ℕ → ℕ → ℝ := fun _ _ _ _ => 1 / 2

/-- Small configuration for the C9 witness. -/
def pC9 : EDParams where
  size_input := 2
  size_output := 1
  size_hidden1 := 1
  size_hidden2 := 0
  flag3 := false
  flag6 := false
  flag7 := false
  flag10 := false
  flag11 := true
  init_range_weight := 1
  init_range_threshold := 1
  learning_rate := 1
  bias := 0
  sigmoid_steepness := 1
  error_amplification := 1
  timesteps := 1

/-- The all-zero input pattern for the C9 witness. -/
def patC9 : ℕ → ℝ := fun _ => 0

/-! ## Helper lemmas -/

theorem total_sub_h2 (p : EDParams) :
    p.total_neurons + 1 - p.size_hidden2 = p.size_input + 2 + p.size_hidden1 := by
  simp only [EDParams.total_neurons, EDParams.size_hidden]
  omega

theorem oscInit_cases (p : EDParams) (c : ℕ) : oscInit p c = 1 ∨ oscInit p c = -1 := by
  unfold oscInit
  rcases Nat.mod_two_eq_zero_or_one (c + 1) with h | h <;> split <;> norm_num [h]

theorem initWeightMag_nonneg (p : EDParams) (r : ℕ → ℝ) (c s : ℕ)
    (hw : 0 ≤ p.init_range_weight) (ht : 0 ≤ p.init_range_threshold)
    (hr : ∀ k, 0 ≤ r k) : 0 ≤ initWeightMag p r c s := by
  simp only [initWeightMag]
  split_ifs <;>
    first
      | exact le_refl 0
      | exact mul_nonneg hw (hr _)
      | exact mul_nonneg ht (hr _)

theorem sigmoid_pos (p : EDParams) (x : ℝ) : 0 < sigmoid p x := by
  unfold sigmoid
  positivity

theorem sigmoid_lt_one (p : EDParams) (x : ℝ) : sigmoid p x < 1 := by
  unfold sigmoid
  rw [div_lt_one (by positivity)]
  linarith [Real.exp_pos (-2 * x / p.sigmoid_steepness)]

theorem sigmoid_zero_eq (p : EDParams) : sigmoid p 0 = 1 / 2 := by
  unfold sigmoid
  norm_num [Real.exp_zero]

theorem learn_foldl_weights (p : EDParams) (tgt : ℕ → ℝ) :
    ∀ (l : List ℕ) (st : EDState),
      (l.foldl (learnNetwork p tgt) st).weights = st.weights := by
  intro l
  induction l with
  | nil => intro st; rfl
  | cons j l ih => intro st; rw [List.foldl_cons]; exact ih _

theorem learn_foldl_neuron_input (p : EDParams) (tgt : ℕ → ℝ) :
    ∀ (l : List ℕ) (st : EDState),
      (l.foldl (learnNetwork p tgt) st).neuron_input = st.neuron_input := by
  intro l
  induction l with
  | nil => intro st; rfl
  | cons j l ih => intro st; rw [List.foldl_cons]; exact ih _

theorem learn_foldl_neuron_output (p : EDParams) (tgt : ℕ → ℝ) :
    ∀ (l : List ℕ) (st : EDState),
      (l.foldl (learnNetwork p tgt) st).neuron_output = st.neuron_output := by
  intro l
  induction l with
  | nil => intro st; rfl
  | cons j l ih => intro st; rw [List.foldl_cons]; exact ih _

theorem learn_foldl_oscillating (p : EDParams) (tgt : ℕ → ℝ) :
    ∀ (l : List ℕ) (st : EDState),
      (l.foldl (learnNetwork p tgt) st).weights_oscillating = st.weights_oscillating := by
  intro l
  induction l with
  | nil => intro st; rfl
  | cons j l ih => intro st; rw [List.foldl_cons]; exact ih _

theorem calculate_learning_weights (p : EDParams) (tgt : ℕ → ℝ) (st : EDState) :
    (calculate_learning p tgt st).weights = st.weights :=
  learn_foldl_weights p tgt _ st

theorem calculate_learning_neuron_input (p : EDParams) (tgt : ℕ → ℝ) (st : EDState) :
    (calculate_learning p tgt st).neuron_input = st.neuron_input :=
  learn_foldl_neuron_input p tgt _ st

theorem calculate_learning_neuron_output (p : EDParams) (tgt : ℕ → ℝ) (st : EDState) :
    (calculate_learning p tgt st).neuron_output = st.neuron_output :=
  learn_foldl_neuron_output p tgt _ st

theorem calculate_learning_oscillating (p : EDParams) (tgt : ℕ → ℝ) (st : EDState) :
    (calculate_learning p tgt st).weights_oscillating = st.weights_oscillating :=
  learn_foldl_oscillating p tgt _ st

theorem learn_foldl_error_delta (p : EDParams) (tgt : ℕ → ℝ) (st : EDState) :
    ∀ (k n c ch : ℕ),
      ((List.range k).foldl (learnNetwork p tgt) st).error_delta n c ch =
        if n < k then deltaAfterLearn p tgt st n c ch else st.error_delta n c ch := by
  intro k
  induction k with
  | zero => intro n c ch; simp
  | succ k ih =>
    intro n c ch
    rw [List.range_succ, List.foldl_append, List.foldl_cons, List.foldl_nil]
    have hout : ((List.range k).foldl (learnNetwork p tgt) st).neuron_output =
        st.neuron_output := learn_foldl_neuron_output p tgt _ st
    by_cases hn : n = k
    · subst hn
      simp only [learnNetwork, hout, deltaAfterLearn, ih, Nat.lt_irrefl, if_false,
        Nat.lt_succ_iff, le_refl, if_true, true_and]
    · simp only [learnNetwork]
      have hcond : ∀ (q : Prop), ¬(n = k ∧ q) := fun q hq => hn hq.1
      rw [if_neg (hcond _), if_neg (hcond _), if_neg (hcond _), if_neg (hcond _), ih n c ch]
      have : n < k ↔ n < k + 1 := by omega
      by_cases hk : n < k
      · rw [if_pos hk, if_pos (by omega)]
      · rw [if_neg hk, if_neg (by omega)]

theorem calculate_learning_error_delta (p : EDParams) (tgt : ℕ → ℝ) (st : EDState)
    (n c ch : ℕ) :
    (calculate_learning p tgt st).error_delta n c ch =
      if n < p.size_output then deltaAfterLearn p tgt st n c ch
      else st.error_delta n c ch :=
  learn_foldl_error_delta p tgt st p.size_output n c ch

theorem mem_cList (p : EDParams) (c : ℕ) :
    c ∈ cList p ↔ p.size_input + 2 ≤ c ∧ c ≤ p.total_neurons + 1 := by
  simp only [cList, List.mem_map, List.mem_range, EDParams.total_neurons, EDParams.size_hidden]
  constructor
  · rintro ⟨i, hi, rfl⟩; omega
  · intro h; exact ⟨c - (p.size_input + 2), by omega, by omega⟩

theorem cList_nodup (p : EDParams) : (cList p).Nodup :=
  (List.nodup_range _).map (fun a b h => by omega)

theorem mem_pairList (p : EDParams) (n c s : ℕ) :
    (n, c, s) ∈ pairList p ↔
      n < p.size_output ∧ p.size_input + 2 ≤ c ∧ c ≤ p.total_neurons + 1 ∧
        s ≤ p.total_neurons + 1 := by
  simp only [pairList, List.mem_product, List.mem_range, mem_cList]
  omega

theorem pairList_nodup (p : EDParams) : (pairList p).Nodup :=
  (List.nodup_range _).product ((cList_nodup p).product (List.nodup_range _))

theorem foldl_update_notMem (p : EDParams) (st : EDState) :
    ∀ (l : List (ℕ × ℕ × ℕ)) (W : ℕ → ℕ → ℕ → ℝ) (n c s : ℕ),
      (n, c, s) ∉ l → (l.foldl (updateCellStep p st) W) n c s = W n c s := by
  intro l
  induction l with
  | nil => intro W n c s _; rfl
  | cons q l ih =>
    rintro W n c s h
    rw [List.mem_cons, not_or] at h
    obtain ⟨qn, qc, qs⟩ := q
    rw [List.foldl_cons, ih _ n c s h.2]
    refine if_neg fun hq => h.1 ?_
    obtain ⟨h1, h2, h3⟩ := hq
    subst h1; subst h2; subst h3; rfl

theorem foldl_update_mem (p : EDParams) (st : EDState) :
    ∀ (l : List (ℕ × ℕ × ℕ)) (W : ℕ → ℕ → ℕ → ℝ) (n c s : ℕ),
      l.Nodup → (n, c, s) ∈ l →
      (l.foldl (updateCellStep p st) W) n c s = weightUpdateCell p st n c s (W n c s) := by
  intro l
  induction l with
  | nil => intro W n c s _ h; exact absurd h (List.not_mem_nil _)
  | cons q l ih =>
    intro W n c s hnd hm
    obtain ⟨hq, hl⟩ := List.nodup_cons.1 hnd
    rw [List.foldl_cons]
    rcases List.mem_cons.1 hm with heq | hm'
    · rw [foldl_update_notMem p st l _ n c s (heq ▸ hq)]
      rw [← heq]
      simp [updateCellStep]
    · rw [ih _ n c s hl hm']
      obtain ⟨qn, qc, qs⟩ := q
      have hne : ¬(n = qn ∧ c = qc ∧ s = qs) := by
        rintro ⟨rfl, rfl, rfl⟩
        exact hq hm'
      rw [updateCellStep, if_neg hne]

theorem calculate_weight_weights (p : EDParams) (st : EDState) (n c s : ℕ) :
    (calculate_weight p st).weights n c s =
      if n < p.size_output ∧ p.size_input + 2 ≤ c ∧ c ≤ p.total_neurons + 1 ∧
          s ≤ p.total_neurons + 1
      then weightUpdateCell p st n c s (st.weights n c s)
      else st.weights n c s := by
  show ((pairList p).foldl (updateCellStep p st) st.weights) n c s = _
  by_cases h : (n, c, s) ∈ pairList p
  · rw [foldl_update_mem p st _ _ n c s (pairList_nodup p) h,
      if_pos ((mem_pairList p n c s).1 h)]
  · rw [foldl_update_notMem p st _ _ n c s h,
      if_neg (fun hc => h ((mem_pairList p n c s).2 hc))]

theorem forwardTimestep_bounds (p : EDParams) (W : ℕ → ℕ → ℝ) (io : (ℕ → ℝ) × (ℕ → ℝ))
    (h1 : ∀ c, 0 ≤ io.1 c) (h2 : ∀ c, 0 ≤ io.2 c ∧ io.2 c ≤ 1) :
    (∀ c, 0 ≤ (forwardTimestep p W io).1 c) ∧
      (∀ c, 0 ≤ (forwardTimestep p W io).2 c ∧ (forwardTimestep p W io).2 c ≤ 1) := by
  have hout : ∀ c, 0 ≤ (forwardTimestep p W io).2 c ∧ (forwardTimestep p W io).2 c ≤ 1 := by
    intro c
    show 0 ≤ (if _ ∧ _ then _ else io.2 c) ∧ (if _ ∧ _ then _ else io.2 c) ≤ 1
    split
    · exact ⟨(sigmoid_pos p _).le, (sigmoid_lt_one p _).le⟩
    · exact h2 c
  refine ⟨fun c => ?_, hout⟩
  show 0 ≤ if _ ∧ _ then _ else io.1 c
  split
  · exact (sigmoid_pos p _).le
  · exact h1 c

theorem forwardIter_bounds (p : EDParams) (W : ℕ → ℕ → ℝ) :
    ∀ (k : ℕ) (io : (ℕ → ℝ) × (ℕ → ℝ)),
      (∀ c, 0 ≤ io.1 c) → (∀ c, 0 ≤ io.2 c ∧ io.2 c ≤ 1) →
      (∀ c, 0 ≤ ((forwardTimestep p W)^[k] io).1 c) ∧
        (∀ c, 0 ≤ ((forwardTimestep p W)^[k] io).2 c ∧
          ((forwardTimestep p W)^[k] io).2 c ≤ 1) := by
  intro k
  induction k with
  | zero => intro io h1 h2; exact ⟨h1, h2⟩
  | succ k ih =>
    intro io h1 h2
    rw [Function.iterate_succ_apply]
    obtain ⟨g1, g2⟩ := forwardTimestep_bounds p W io h1 h2
    exact ih _ g1 g2

theorem calculate_output_output_sigmoid (p : EDParams) (pat : ℕ → ℝ) (st : EDState)
    (n c : ℕ) (ht : 1 ≤ p.timesteps) (hn : n < p.size_output)
    (hc1 : p.size_input + 2 ≤ c) (hc2 : c ≤ p.total_neurons + 1) :
    ∃ x, (calculate_output p pat st).neuron_output n c = sigmoid p x := by
  show (∃ x, (if n < p.size_output then _ else _) = sigmoid p x)
  rw [if_pos hn]
  obtain ⟨m, hm⟩ : ∃ m, p.timesteps = m + 1 := ⟨p.timesteps - 1, by omega⟩
  unfold forwardNet
  rw [hm, Function.iterate_succ_apply']
  show ∃ x, (if p.size_input + 2 ≤ c ∧ c ≤ p.total_neurons + 1 then sigmoid p _ else _)
    = sigmoid p x
  rw [if_pos ⟨hc1, hc2⟩]
  exact ⟨_, rfl⟩

theorem sign_mul_polarity (m a b : ℝ) (hm : 0 ≤ m) (ha : a = 1 ∨ a = -1)
    (hb : b = 1 ∨ b = -1) :
    m * (a * b) = 0 ∨ Real.sign (m * (a * b)) = a * b := by
  rcases eq_or_lt_of_le hm with h0 | hpos
  · left
    rw [← h0, zero_mul]
  · right
    have h1 : Real.sign m = 1 := Real.sign_of_pos hpos
    have h2 : Real.sign (-m) = -1 := Real.sign_of_neg (by linarith)
    rcases ha with rfl | rfl <;> rcases hb with rfl | rfl <;>
      simp only [one_mul, mul_one, neg_neg, mul_neg, neg_mul] <;>
      simp [h1, h2]

theorem sign_add_aligned (w d P : ℝ) (hw : w ≠ 0) (hsgn : Real.sign w = P) (hd : 0 ≤ d) :
    Real.sign (w + d * P) = P := by
  rcases lt_trichotomy w 0 with hneg | hz | hpos
  · have hP : P = -1 := by rw [← hsgn, Real.sign_of_neg hneg]
    rw [hP]
    exact Real.sign_of_neg (by nlinarith)
  · exact absurd hz hw
  · have hP : P = 1 := by rw [← hsgn, Real.sign_of_pos hpos]
    rw [hP]
    exact Real.sign_of_pos (by nlinarith)

theorem goodState_init (p : EDParams) (r : ℕ → ℕ → ℕ → ℕ → ℝ)
    (hr : ∀ n c s k, 0 ≤ r n c s k) (hw : 0 ≤ p.init_range_weight)
    (ht : 0 ≤ p.init_range_threshold) (hb : 0 ≤ p.bias) :
    GoodState p (init_network p r zeroState) := by
  refine ⟨?_, ?_, ?_, ?_⟩
  · intro n c s hn hc1 hc2 hs
    have hws : (init_network p r zeroState).weights n c s = initWeight p (r n c s) c s := by
      show (if _ then _ else _) = _
      rw [if_pos ⟨hn, hc1, hc2, hs⟩]
    have hpos : 0 < p.size_output := lt_of_le_of_lt (Nat.zero_le n) hn
    have hos : (init_network p r zeroState).weights_oscillating s = oscInit p s := by
      show (if _ then _ else _) = _
      rw [if_pos ⟨hpos, hs⟩]
    have hoc : (init_network p r zeroState).weights_oscillating c = oscInit p c := by
      show (if _ then _ else _) = _
      rw [if_pos ⟨hpos, hc2⟩]
    rw [hws, hos, hoc, initWeight]
    exact sign_mul_polarity _ _ _
      (initWeightMag_nonneg p (r n c s) c s hw ht (fun k => hr n c s k))
      (oscInit_cases p s) (oscInit_cases p c)
  · intro n c
    simp only [init_network]
    split
    · exact hb
    · exact le_refl 0
  · intro n c
    exact ⟨le_refl 0, zero_le_one⟩
  · intro n c ch
    exact le_refl 0

theorem goodState_output (p : EDParams) (pat : ℕ → ℝ) (st : EDState)
    (hpat : ∀ k, 0 ≤ pat k) (h : GoodState p st) :
    GoodState p (calculate_output p pat st) := by
  obtain ⟨hs, hi, ho, he⟩ := h
  have hinp1 : ∀ n, ∀ d, (0:ℝ) ≤
      (fun c => if p.flag6 = true ∧ p.size_input + 2 ≤ c ∧ c ≤ p.total_neurons + 1 then 0
        else if 2 ≤ c ∧ c ≤ p.size_input + 1 then pat (c / 2 - 1)
        else st.neuron_input n c) d := by
    intro n d
    simp only
    split
    · exact le_refl 0
    · split
      · exact hpat _
      · exact hi n d
  refine ⟨hs, ?_, ?_, he⟩
  · intro n c
    show 0 ≤ if n < p.size_output then _ else st.neuron_input n c
    split
    · simp only [forwardNet]
      exact (forwardIter_bounds p (st.weights n) p.timesteps _ (hinp1 n)
        (fun d => ho n d)).1 c
    · exact hi n c
  · intro n c
    show 0 ≤ (if n < p.size_output then _ else st.neuron_output n c) ∧
      (if n < p.size_output then _ else st.neuron_output n c) ≤ 1
    split
    · simp only [forwardNet]
      exact (forwardIter_bounds p (st.weights n) p.timesteps _ (hinp1 n)
        (fun d => ho n d)).2 c
    · exact ho n c

theorem goodState_learn (p : EDParams) (tgt : ℕ → ℝ) (st : EDState)
    (hamp : 0 ≤ p.error_amplification) (h : GoodState p st) :
    GoodState p (calculate_learning p tgt st) := by
  obtain ⟨hs, hi, ho, he⟩ := h
  refine ⟨?_, ?_, ?_, ?_⟩
  · intro n c s hn hc1 hc2 hs'
    simp only [calculate_learning_weights, calculate_learning_oscillating]
    exact hs n c s hn hc1 hc2 hs'
  · intro n c
    simp only [calculate_learning_neuron_input]
    exact hi n c
  · intro n c
    simp only [calculate_learning_neuron_output]
    exact ho n c
  · intro n c ch
    rw [calculate_learning_error_delta]
    split
    · simp only [deltaAfterLearn]
      have hexc : (0:ℝ) ≤ if tgt n - st.neuron_output n (p.size_input + 2) > 0
          then tgt n - st.neuron_output n (p.size_input + 2) else 0 := by
        split
        · linarith
        · exact le_refl 0
      have hinh : (0:ℝ) ≤ if tgt n - st.neuron_output n (p.size_input + 2) > 0
          then 0 else -(tgt n - st.neuron_output n (p.size_input + 2)) := by
        split
        · exact le_refl 0
        · linarith
      split_ifs <;>
        first
          | linarith
          | exact mul_nonneg (by linarith) hamp
          | exact he n c ch
    · exact he n c ch

theorem goodState_update (p : EDParams) (st : EDState) (hm : p.flag10 = false)
    (hlr : 0 ≤ p.learning_rate) (h : GoodState p st) :
    GoodState p (calculate_weight p st) := by
  obtain ⟨hs, hi, ho, he⟩ := h
  refine ⟨?_, hi, ho, he⟩
  intro n c s hn hc1 hc2 hs'
  rw [calculate_weight_weights, if_pos ⟨hn, hc1, hc2, hs'⟩]
  by_cases h0 : st.weights n c s = 0
  · left
    rw [h0]
    simp [weightUpdateCell]
  · have hsgn : Real.sign (st.weights n c s) =
        st.weights_oscillating s * st.weights_oscillating c :=
      (hs n c s hn hc1 hc2 hs').resolve_left h0
    right
    have hd : 0 ≤ p.learning_rate * st.neuron_input n s *
        |st.neuron_output n c| * (1 - |st.neuron_output n c|) := by
      have h2 := (ho n c).1
      have h3 := (ho n c).2
      have habs : |st.neuron_output n c| = st.neuron_output n c := abs_of_nonneg h2
      apply mul_nonneg (mul_nonneg (mul_nonneg hlr (hi n s)) (abs_nonneg _))
      rw [habs]
      linarith
    have key : ∀ chan : ℝ, 0 ≤ chan →
        Real.sign (st.weights n c s +
          p.learning_rate * st.neuron_input n s *
            |st.neuron_output n c| * (1 - |st.neuron_output n c|) * chan *
            st.weights_oscillating s * st.weights_oscillating c) =
          st.weights_oscillating s * st.weights_oscillating c := by
      intro chan hchan
      have hassoc : p.learning_rate * st.neuron_input n s *
          |st.neuron_output n c| * (1 - |st.neuron_output n c|) * chan *
          st.weights_oscillating s * st.weights_oscillating c =
          (p.learning_rate * st.neuron_input n s *
            |st.neuron_output n c| * (1 - |st.neuron_output n c|) * chan) *
          (st.weights_oscillating s * st.weights_oscillating c) := by
        ring
      rw [hassoc]
      exact sign_add_aligned _ _ _ h0 hsgn (mul_nonneg hd hchan)
    simp only [weightUpdateCell, hm]
    rw [if_pos h0, if_neg Bool.false_ne_true]
    split
    · exact key _ (he n c 0)
    · exact key _ (he n c 1)

theorem updateCellStep_right_comm (p : EDParams) (st : EDState)
    (W : ℕ → ℕ → ℕ → ℝ) (q1 q2 : ℕ × ℕ × ℕ) :
    updateCellStep p st (updateCellStep p st W q1) q2 =
      updateCellStep p st (updateCellStep p st W q2) q1 := by
  obtain ⟨a1, b1, d1⟩ := q1
  obtain ⟨a2, b2, d2⟩ := q2
  funext n c s
  simp only [updateCellStep]
  by_cases h1 : n = a1 ∧ c = b1 ∧ s = d1
  · obtain ⟨rfl, rfl, rfl⟩ := h1
    by_cases h2 : n = a2 ∧ c = b2 ∧ s = d2
    · obtain ⟨rfl, rfl, rfl⟩ := h2
      simp
    · simp [h2]
  · by_cases h2 : n = a2 ∧ c = b2 ∧ s = d2
    · obtain ⟨rfl, rfl, rfl⟩ := h2
      simp [h1]
    · simp [h1, h2]

theorem reachableNonneg_good (p : EDParams) (hm : p.flag10 = false)
    (hlr : 0 ≤ p.learning_rate) (hb : 0 ≤ p.bias) (hamp : 0 ≤ p.error_amplification)
    (hw : 0 ≤ p.init_range_weight) (ht : 0 ≤ p.init_range_threshold) :
    ∀ st, EDReachableNonneg p st → GoodState p st := by
  intro st h
  induction h with
  | base r hr => exact goodState_init p r hr hw ht hb
  | forward pat hpat _ ih => exact goodState_output p pat _ hpat ih
  | learn tgt _ ih => exact goodState_learn p tgt _ hamp ih
  | update _ ih => exact goodState_update p _ hm hlr ih

theorem deltaAfterLearn_out0 (p : EDParams) (tgt : ℕ → ℝ) (st : EDState) (n : ℕ) :
    deltaAfterLearn p tgt st n (p.size_input + 2) 0 =
      if tgt n - st.neuron_output n (p.size_input + 2) > 0
      then tgt n - st.neuron_output n (p.size_input + 2) else 0 := by
  simp [deltaAfterLearn]

theorem deltaAfterLearn_out1 (p : EDParams) (tgt : ℕ → ℝ) (st : EDState) (n : ℕ) :
    deltaAfterLearn p tgt st n (p.size_input + 2) 1 =
      if tgt n - st.neuron_output n (p.size_input + 2) > 0
      then 0 else -(tgt n - st.neuron_output n (p.size_input + 2)) := by
  simp [deltaAfterLearn]

theorem deltaAfterLearn_hidden (p : EDParams) (tgt : ℕ → ℝ) (st : EDState) (n c ch : ℕ)
    (hc1 : p.size_input + 3 ≤ c) (hc2 : c ≤ p.total_neurons + 1) (hch : ch = 0 ∨ ch = 1) :
    deltaAfterLearn p tgt st n c ch =
      deltaAfterLearn p tgt st n (p.size_input + 2) ch * p.error_amplification := by
  have hne : c ≠ p.size_input + 2 := by omega
  rcases hch with rfl | rfl
  · rw [deltaAfterLearn_out0]
    simp only [deltaAfterLearn]
    rw [if_neg (by simp [hne]), if_neg (by simp), if_pos ⟨hc1, hc2, by trivial⟩]
  · rw [deltaAfterLearn_out1]
    simp only [deltaAfterLearn]
    rw [if_neg (by simp), if_neg (by simp [hne]), if_neg (by simp),
      if_pos ⟨hc1, hc2, by trivial⟩]

/-! ## Claim theorems -/

/-- C2: the result of one `calculate_weight` call does not depend on the
order in which the (network, target, source) triples are visited: folding
the per-cell update, which reads only the pre-call snapshot and the cell's
own weight, over any permutation of the loop's triple list produces exactly
the weight matrix that `calculate_weight` produces. -/
theorem c2_update_order_independent (p : EDParams) (st : EDState)
    (l : List (ℕ × ℕ × ℕ)) (hperm : l.Perm (pairList p)) :
    l.foldl (updateCellStep p st) st.weights = (calculate_weight p st).weights := by
  haveI : RightCommutative (updateCellStep p st) := ⟨updateCellStep_right_comm p st⟩
  exact hperm.foldl_eq st.weights

theorem c2_witness :
    ((pairList pC2).reverse).Perm (pairList pC2) ∧
      ((pairList pC2).reverse).foldl (updateCellStep pC2 zeroState) zeroState.weights =
        (calculate_weight pC2 zeroState).weights :=
  ⟨(pairList pC2).reverse_perm,
    c2_update_order_independent pC2 zeroState _ (pairList pC2).reverse_perm⟩

/-- C4: `calculate_weight` never modifies a weight that is exactly zero, so
a disabled connection stays disabled across the update. -/
theorem c4_zero_weight_stays_zero (p : EDParams) (st : EDState) (n c s : ℕ)
    (h : st.weights n c s = 0) : (calculate_weight p st).weights n c s = 0 := by
  rw [calculate_weight_weights]
  split
  · rw [h]
    simp [weightUpdateCell]
  · exact h

theorem c4_witness :
    zeroState.weights 0 4 0 = 0 ∧ (calculate_weight pC4 zeroState).weights 0 4 0 = 0 :=
  ⟨rfl, c4_zero_weight_stays_zero pC4 zeroState 0 4 0 rfl⟩

/-- C5: in selective mode (bidirectional flag cleared), one update step adds
to every nonzero in-range weight exactly
delta * excitatoryError[target] * polarity[source] * polarity[target]
when the source polarity is positive, and the inhibitory-channel analogue
otherwise, where delta = learning_rate * neuron_input[source] *
|neuron_output[target]| * (1 - |neuron_output[target]|). -/
theorem c5_selective_update (p : EDParams) (st : EDState) (n c s : ℕ)
    (hmode : p.flag10 = false) (hn : n < p.size_output) (hc1 : p.size_input + 2 ≤ c)
    (hc2 : c ≤ p.total_neurons + 1) (hs : s ≤ p.total_neurons + 1)
    (hw : st.weights n c s ≠ 0) :
    (calculate_weight p st).weights n c s =
      if st.weights_oscillating s > 0 then
        st.weights n c s + p.learning_rate * st.neuron_input n s *
          |st.neuron_output n c| * (1 - |st.neuron_output n c|) *
          st.error_delta n c 0 * st.weights_oscillating s * st.weights_oscillating c
      else
        st.weights n c s + p.learning_rate * st.neuron_input n s *
          |st.neuron_output n c| * (1 - |st.neuron_output n c|) *
          st.error_delta n c 1 * st.weights_oscillating s * st.weights_oscillating c := by
  rw [calculate_weight_weights, if_pos ⟨hn, hc1, hc2, hs⟩]
  simp only [weightUpdateCell, hmode]
  rw [if_pos hw, if_neg Bool.false_ne_true]

theorem c5_witness :
    stC5.weights 0 4 2 ≠ 0 ∧
      (calculate_weight pC5 stC5).weights 0 4 2 =
        (if stC5.weights_oscillating 2 > 0 then
          stC5.weights 0 4 2 + pC5.learning_rate * stC5.neuron_input 0 2 *
            |stC5.neuron_output 0 4| * (1 - |stC5.neuron_output 0 4|) *
            stC5.error_delta 0 4 0 * stC5.weights_oscillating 2 *
            stC5.weights_oscillating 4
        else
          stC5.weights 0 4 2 + pC5.learning_rate * stC5.neuron_input 0 2 *
            |stC5.neuron_output 0 4| * (1 - |stC5.neuron_output 0 4|) *
            stC5.error_delta 0 4 1 * stC5.weights_oscillating 2 *
            stC5.weights_oscillating 4) :=
  ⟨by norm_num [stC5],
    c5_selective_update pC5 stC5 0 4 2 rfl (by norm_num [pC5])
      (by norm_num [pC5]) (by norm_num [pC5, EDParams.total_neurons, EDParams.size_hidden])
      (by norm_num [pC5, EDParams.total_neurons, EDParams.size_hidden])
      (by norm_num [stC5])⟩

/-- C6: after `calculate_learning`, the channel pair stored at the output
neuron's slot of every network multiplies to zero, differs by exactly
target - output, and has both components nonnegative. -/
theorem c6_error_split (p : EDParams) (tgt : ℕ → ℝ) (st : EDState) (n : ℕ)
    (hn : n < p.size_output) :
    (calculate_learning p tgt st).error_delta n (p.size_input + 2) 0 *
        (calculate_learning p tgt st).error_delta n (p.size_input + 2) 1 = 0 ∧
      (calculate_learning p tgt st).error_delta n (p.size_input + 2) 0 -
          (calculate_learning p tgt st).error_delta n (p.size_input + 2) 1 =
        tgt n - st.neuron_output n (p.size_input + 2) ∧
      0 ≤ (calculate_learning p tgt st).error_delta n (p.size_input + 2) 0 ∧
      0 ≤ (calculate_learning p tgt st).error_delta n (p.size_input + 2) 1 := by
  rw [calculate_learning_error_delta, calculate_learning_error_delta, if_pos hn,
    if_pos hn, deltaAfterLearn_out0, deltaAfterLearn_out1]
  split_ifs with hpos
  · exact ⟨mul_zero _, sub_zero _, le_of_lt hpos, le_refl 0⟩
  · exact ⟨zero_mul _, by ring, le_refl 0, by linarith⟩

theorem c6_witness :
    0 < pC6.size_output ∧
      (calculate_learning pC6 tgtC6 zeroState).error_delta 0 (pC6.size_input + 2) 0 *
        (calculate_learning pC6 tgtC6 zeroState).error_delta 0 (pC6.size_input + 2) 1 = 0 ∧
      (calculate_learning pC6 tgtC6 zeroState).error_delta 0 (pC6.size_input + 2) 0 -
          (calculate_learning pC6 tgtC6 zeroState).error_delta 0 (pC6.size_input + 2) 1 =
        tgtC6 0 - zeroState.neuron_output 0 (pC6.size_input + 2) ∧
      0 ≤ (calculate_learning pC6 tgtC6 zeroState).error_delta 0 (pC6.size_input + 2) 0 ∧
      0 ≤ (calculate_learning pC6 tgtC6 zeroState).error_delta 0 (pC6.size_input + 2) 1 :=
  ⟨by norm_num [pC6], c6_error_split pC6 tgtC6 zeroState 0 (by norm_num [pC6])⟩

/-- C7: after `calculate_learning`, every hidden slot
(size_input + 3 .. total_neurons + 1) of a network holds the output slot's
channel pair multiplied componentwise by error_amplification, and the
output slot itself holds the unamplified split pair. -/
theorem c7_broadcast_uniformity (p : EDParams) (tgt : ℕ → ℝ) (st : EDState) (n c ch : ℕ)
    (hn : n < p.size_output) (hc1 : p.size_input + 3 ≤ c) (hc2 : c ≤ p.total_neurons + 1)
    (hch : ch = 0 ∨ ch = 1) :
    (calculate_learning p tgt st).error_delta n c ch =
        (calculate_learning p tgt st).error_delta n (p.size_input + 2) ch *
          p.error_amplification ∧
      (calculate_learning p tgt st).error_delta n (p.size_input + 2) 0 =
        (if tgt n - st.neuron_output n (p.size_input + 2) > 0
          then tgt n - st.neuron_output n (p.size_input + 2) else 0) ∧
      (calculate_learning p tgt st).error_delta n (p.size_input + 2) 1 =
        (if tgt n - st.neuron_output n (p.size_input + 2) > 0
          then 0 else -(tgt n - st.neuron_output n (p.size_input + 2))) := by
  refine ⟨?_, ?_, ?_⟩
  · rw [calculate_learning_error_delta, calculate_learning_error_delta, if_pos hn,
      if_pos hn]
    exact deltaAfterLearn_hidden p tgt st n c ch hc1 hc2 hch
  · rw [calculate_learning_error_delta, if_pos hn, deltaAfterLearn_out0]
  · rw [calculate_learning_error_delta, if_pos hn, deltaAfterLearn_out1]

theorem c7_witness :
    0 < pC7.size_output ∧ pC7.size_input + 3 ≤ 5 ∧ 5 ≤ pC7.total_neurons + 1 ∧
      (calculate_learning pC7 tgtC7 zeroState).error_delta 0 5 0 =
        (calculate_learning pC7 tgtC7 zeroState).error_delta 0 (pC7.size_input + 2) 0 *
          pC7.error_amplification :=
  ⟨by norm_num [pC7], by norm_num [pC7],
    by norm_num [pC7, EDParams.total_neurons, EDParams.size_hidden],
    (c7_broadcast_uniformity pC7 tgtC7 zeroState 0 5 0 (by norm_num [pC7])
      (by norm_num [pC7])
      (by norm_num [pC7, EDParams.total_neurons, EDParams.size_hidden]) (Or.inl rfl)).1⟩

/-- C9: the sigmoid lies strictly between 0 and 1 for every real argument
(given positive steepness); consequently every activation stored by a
forward pass with at least one timestep lies in (0, 1), and on such
activations the update rule's |output| * (1 - |output|) agrees with the
textbook output * (1 - output). -/
theorem c9_sigmoid_unit_interval (p : EDParams) (x : ℝ) (pat : ℕ → ℝ) (st : EDState)
    (n c : ℕ) (hsteep : 0 < p.sigmoid_steepness) (ht : 1 ≤ p.timesteps)
    (hn : n < p.size_output) (hc1 : p.size_input + 2 ≤ c) (hc2 : c ≤ p.total_neurons + 1) :
    (0 < sigmoid p x ∧ sigmoid p x < 1) ∧
      0 < (calculate_output p pat st).neuron_output n c ∧
      (calculate_output p pat st).neuron_output n c < 1 ∧
      |(calculate_output p pat st).neuron_output n c| *
          (1 - |(calculate_output p pat st).neuron_output n c|) =
        (calculate_output p pat st).neuron_output n c *
          (1 - (calculate_output p pat st).neuron_output n c) := by
  obtain ⟨y, hy⟩ := calculate_output_output_sigmoid p pat st n c ht hn hc1 hc2
  refine ⟨⟨sigmoid_pos p x, sigmoid_lt_one p x⟩, ?_, ?_, ?_⟩
  · rw [hy]
    exact sigmoid_pos p y
  · rw [hy]
    exact sigmoid_lt_one p y
  · rw [hy, abs_of_nonneg (sigmoid_pos p y).le]

theorem c9_witness :
    (0 < sigmoid pC9 0 ∧ sigmoid pC9 0 < 1) ∧
      0 < (calculate_output pC9 patC9 zeroState).neuron_output 0 4 ∧
      (calculate_output pC9 patC9 zeroState).neuron_output 0 4 < 1 ∧
      |(calculate_output pC9 patC9 zeroState).neuron_output 0 4| *
          (1 - |(calculate_output pC9 patC9 zeroState).neuron_output 0 4|) =
        (calculate_output pC9 patC9 zeroState).neuron_output 0 4 *
          (1 - (calculate_output pC9 patC9 zeroState).neuron_output 0 4) :=
  c9_sigmoid_unit_interval pC9 0 patC9 zeroState 0 4 (by norm_num [pC9])
    (by norm_num [pC9]) (by norm_num [pC9]) (by norm_num [pC9])
    (by norm_num [pC9, EDParams.total_neurons, EDParams.size_hidden])

/-- C10: `calculate_weight` modifies only the weight matrix: both activation
arrays, the error table, the polarity vector and the two error counters are
unchanged by one call. -/
theorem c10_frame (p : EDParams) (st : EDState) :
    (calculate_weight p st).neuron_input = st.neuron_input ∧
      (calculate_weight p st).neuron_output = st.neuron_output ∧
      (calculate_weight p st).error_delta = st.error_delta ∧
      (calculate_weight p st).weights_oscillating = st.weights_oscillating ∧
      (calculate_weight p st).error_total = st.error_total ∧
      (calculate_weight p st).error_count = st.error_count :=
  ⟨rfl, rfl, rfl, rfl, rfl, rfl⟩

/-- C1 (counterexample): with the loop-cutting flag enabled and a second
hidden layer configured (pC1: size_input 2, hidden 1+1, so the hidden
non-output indices are 5 and 6 and index 6 forms the second layer), the
weight from hidden neuron 5 into hidden neuron 6 written by `init_network`
is -1, not 0: the second-hidden-layer internal-connection rule runs after
the loop-cutting rule and overwrites its zero. -/
theorem c1_counterexample :
    pC1.flag6 = true ∧ 0 < pC1.size_hidden2 ∧
      pC1.size_input + 3 ≤ 5 ∧ 6 ≤ pC1.total_neurons + 1 ∧ (5 : ℕ) ≠ 6 ∧
      (init_network pC1 rC1 zeroState).weights 0 6 5 = -1 := by
  refine ⟨rfl, by norm_num [pC1], by norm_num [pC1],
    by norm_num [pC1, EDParams.total_neurons, EDParams.size_hidden], by norm_num, ?_⟩
  simp only [init_network]
  rw [if_pos ⟨by norm_num [pC1],
    by norm_num [pC1], by norm_num [pC1, EDParams.total_neurons, EDParams.size_hidden],
    by norm_num [pC1, EDParams.total_neurons, EDParams.size_hidden]⟩]
  norm_num [initWeight, initWeightMag, oscInit, pC1, rC1,
    EDParams.total_neurons, EDParams.size_hidden]

/-- C1 (amended): with loop cutting enabled, the weight between two distinct
hidden neurons (indices in size_input + 3 .. total_neurons + 1) is zero
whenever the target neuron is not in the second hidden layer
(c ≤ total_neurons + 1 - size_hidden2); in particular, with
size_hidden2 = 0 the original claim holds in both directions.  Weights
whose target lies in the second hidden layer are re-enabled by the
later second-hidden-layer internal-connection rule. -/
theorem c1_loop_cutting_amended (p : EDParams) (r : ℕ → ℕ → ℕ → ℕ → ℝ) (st : EDState)
    (n c s : ℕ) (hflag : p.flag6 = true) (hn : n < p.size_output)
    (hc1 : p.size_input + 3 ≤ c) (hc2 : c ≤ p.total_neurons + 1 - p.size_hidden2)
    (hs1 : p.size_input + 3 ≤ s) (hs2 : s ≤ p.total_neurons + 1) (hne : c ≠ s) :
    (init_network p r st).weights n c s = 0 := by
  have htot := total_sub_h2 p
  have hc2' : c ≤ p.total_neurons + 1 := by omega
  simp only [init_network]
  rw [if_pos ⟨hn, by omega, hc2', hs2⟩, initWeight]
  have hmag : initWeightMag p (r n c s) c s = 0 := by
    simp only [initWeightMag]
    rw [if_neg (by rintro ⟨-, h, -⟩; omega),
      if_neg hne,
      if_neg (by rintro ⟨h, -⟩; omega),
      if_neg (by rintro ⟨-, -, h, -⟩; omega),
      if_neg (by rintro ⟨-, -, -, h⟩; omega),
      if_pos ⟨hflag, hne, by omega, by omega⟩]
  rw [hmag, zero_mul]

theorem c1_witness :
    pC1.flag6 = true ∧ 0 < pC1.size_output ∧ pC1.size_input + 3 ≤ 5 ∧
      5 ≤ pC1.total_neurons + 1 - pC1.size_hidden2 ∧ pC1.size_input + 3 ≤ 6 ∧
      6 ≤ pC1.total_neurons + 1 ∧ (5 : ℕ) ≠ 6 ∧
      (init_network pC1 rC1 zeroState).weights 0 5 6 = 0 :=
  ⟨rfl, by norm_num [pC1], by norm_num [pC1],
    by norm_num [pC1, EDParams.total_neurons, EDParams.size_hidden],
    by norm_num [pC1],
    by norm_num [pC1, EDParams.total_neurons, EDParams.size_hidden], by norm_num,
    c1_loop_cutting_amended pC1 rC1 zeroState 0 5 6 rfl (by norm_num [pC1])
      (by norm_num [pC1])
      (by norm_num [pC1, EDParams.total_neurons, EDParams.size_hidden])
      (by norm_num [pC1])
      (by norm_num [pC1, EDParams.total_neurons, EDParams.size_hidden]) (by norm_num)⟩

/-- C8 (counterexample): `init_network` performs no validation: on the
structurally invalid configuration pC8 (odd size_input = 3) it still
constructs the network state — the weight from the positive bias into the
output neuron (index 5) is assigned the value 1, the bias input is set,
and the counters are reset — instead of failing fast with no state
constructed. -/
theorem c8_counterexample :
    pC8.size_input % 2 = 1 ∧
      (init_network pC8 rC8 zeroState).weights 0 5 0 = 1 ∧
      (init_network pC8 rC8 zeroState).neuron_input 0 0 = pC8.bias ∧
      (init_network pC8 rC8 zeroState).error_count = 0 := by
  refine ⟨by norm_num [pC8], ?_, ?_, rfl⟩
  · simp only [init_network]
    rw [if_pos ⟨by norm_num [pC8], by norm_num [pC8],
      by norm_num [pC8, EDParams.total_neurons, EDParams.size_hidden],
      by norm_num [pC8, EDParams.total_neurons, EDParams.size_hidden]⟩]
    norm_num [initWeight, initWeightMag, oscInit, pC8, rC8,
      EDParams.total_neurons, EDParams.size_hidden]
  · simp only [init_network]
    rw [if_pos ⟨by norm_num [pC8], by norm_num⟩]

/-- C8 (amended): `init_network` rejects nothing: for every configuration,
valid or structurally invalid, it unconditionally constructs the network
state, assigning every in-range weight per the initialisation rules and
resetting the error counters; validating the configuration is the caller's
responsibility. -/
theorem c8_no_validation (p : EDParams) (r : ℕ → ℕ → ℕ → ℕ → ℝ) (st : EDState)
    (n c s : ℕ) (hn : n < p.size_output) (hc1 : p.size_input + 2 ≤ c)
    (hc2 : c ≤ p.total_neurons + 1) (hs : s ≤ p.total_neurons + 1) :
    (init_network p r st).weights n c s = initWeight p (r n c s) c s ∧
      (init_network p r st).error_total = 0 ∧
      (init_network p r st).error_count = 0 := by
  refine ⟨?_, rfl, rfl⟩
  simp only [init_network]
  rw [if_pos ⟨hn, hc1, hc2, hs⟩]

theorem c8_witness :
    pC8.size_input % 2 = 1 ∧ 0 < pC8.size_output ∧ pC8.size_input + 2 ≤ 5 ∧
      5 ≤ pC8.total_neurons + 1 ∧ (0 : ℕ) ≤ pC8.total_neurons + 1 ∧
      ((init_network pC8 rC8 zeroState).weights 0 5 0 =
          initWeight pC8 (rC8 0 5 0) 5 0 ∧
        (init_network pC8 rC8 zeroState).error_total = 0 ∧
        (init_network pC8 rC8 zeroState).error_count = 0) :=
  ⟨by norm_num [pC8], by norm_num [pC8], by norm_num [pC8],
    by norm_num [pC8, EDParams.total_neurons, EDParams.size_hidden], by norm_num,
    c8_no_validation pC8 rC8 zeroState 0 5 0 (by norm_num [pC8]) (by norm_num [pC8])
      (by norm_num [pC8, EDParams.total_neurons, EDParams.size_hidden])
      (by norm_num [pC8, EDParams.total_neurons, EDParams.size_hidden])⟩

theorem calculate_output_zero (p : EDParams) (pat : ℕ → ℝ) (st : EDState) (n c : ℕ)
    (hn : n < p.size_output) (ht : p.timesteps = 1) (hpat : ∀ k, pat k = 0)
    (hinp : ∀ s, st.neuron_input n s = 0) (hc1 : p.size_input + 2 ≤ c)
    (hc2 : c ≤ p.total_neurons + 1) :
    (calculate_output p pat st).neuron_output n c = 1 / 2 ∧
      (calculate_output p pat st).neuron_input n c = 1 / 2 := by
  have key : ∀ (W : ℕ → ℕ → ℝ) (io : (ℕ → ℝ) × (ℕ → ℝ)), (∀ s, io.1 s = 0) →
      (forwardTimestep p W io).2 c = 1 / 2 ∧ (forwardTimestep p W io).1 c = 1 / 2 := by
    intro W io h0
    have hsum : ∀ d, (∑ s ∈ Finset.range (p.total_neurons + 2), W d s * io.1 s) = 0 :=
      fun d => Finset.sum_eq_zero (fun s _ => by rw [h0 s, mul_zero])
    constructor
    · simp only [forwardTimestep]
      rw [if_pos ⟨hc1, hc2⟩, hsum, sigmoid_zero_eq]
    · simp only [forwardTimestep]
      rw [if_pos ⟨hc1, hc2⟩, if_pos ⟨hc1, hc2⟩, hsum, sigmoid_zero_eq]
  constructor
  · simp only [calculate_output]
    rw [if_pos hn]
    simp only [forwardNet, ht, Function.iterate_one]
    refine (key _ _ ?_).1
    intro s
    simp only
    split
    · rfl
    · split
      · exact hpat _
      · exact hinp s
  · simp only [calculate_output]
    rw [if_pos hn]
    simp only [forwardNet, ht, Function.iterate_one]
    refine (key _ _ ?_).2
    intro s
    simp only
    split
    · rfl
    · split
      · exact hpat _
      · exact hinp s

theorem stC3a_neuron_input (s : ℕ) : stC3a.neuron_input 0 s = 0 := by
  simp only [stC3a, init_network]
  split
  · norm_num [pC3]
  · rfl

theorem stC3b_out4 : stC3b.neuron_output 0 4 = 1 / 2 :=
  (calculate_output_zero pC3 patC3 stC3a 0 4 (by norm_num [pC3]) rfl (fun k => rfl)
    stC3a_neuron_input (by norm_num [pC3])
    (by norm_num [pC3, EDParams.total_neurons, EDParams.size_hidden])).1

theorem stC3b_in5 : stC3b.neuron_input 0 5 = 1 / 2 :=
  (calculate_output_zero pC3 patC3 stC3a 0 5 (by norm_num [pC3]) rfl (fun k => rfl)
    stC3a_neuron_input (by norm_num [pC3])
    (by norm_num [pC3, EDParams.total_neurons, EDParams.size_hidden])).2

theorem stC3a_w45 : stC3a.weights 0 4 5 = -1 := by
  simp only [stC3a, init_network]
  rw [if_pos ⟨by norm_num [pC3], by norm_num [pC3],
    by norm_num [pC3, EDParams.total_neurons, EDParams.size_hidden],
    by norm_num [pC3, EDParams.total_neurons, EDParams.size_hidden]⟩]
  norm_num [initWeight, initWeightMag, oscInit, pC3, rC3,
    EDParams.total_neurons, EDParams.size_hidden]

theorem stC3a_osc5 : stC3a.weights_oscillating 5 = -1 := by
  simp only [stC3a, init_network]
  rw [if_pos ⟨by norm_num [pC3],
    by norm_num [pC3, EDParams.total_neurons, EDParams.size_hidden]⟩]
  norm_num [oscInit, pC3]

theorem stC3a_osc4 : stC3a.weights_oscillating 4 = 1 := by
  simp only [stC3a, init_network]
  rw [if_pos ⟨by norm_num [pC3],
    by norm_num [pC3, EDParams.total_neurons, EDParams.size_hidden]⟩]
  norm_num [oscInit, pC3]

theorem stC3c_err41 : stC3c.error_delta 0 4 1 = 2 := by
  have h4 : pC3.size_input + 2 = 4 := by norm_num [pC3]
  rw [stC3c, calculate_learning_error_delta, if_pos (by norm_num [pC3] : 0 < pC3.size_output)]
  rw [show (4 : ℕ) = pC3.size_input + 2 from h4.symm, deltaAfterLearn_out1, h4,
    stC3b_out4]
  norm_num [tgtC3]

theorem stC3c_w45 : stC3c.weights 0 4 5 = -1 := by
  rw [stC3c, calculate_learning_weights]
  exact stC3a_w45

theorem stC3c_osc5 : stC3c.weights_oscillating 5 = -1 := by
  rw [stC3c, calculate_learning_oscillating]
  exact stC3a_osc5

theorem stC3c_osc4 : stC3c.weights_oscillating 4 = 1 := by
  rw [stC3c, calculate_learning_oscillating]
  exact stC3a_osc4

theorem stC3c_in5 : stC3c.neuron_input 0 5 = 1 / 2 := by
  rw [stC3c, calculate_learning_neuron_input]
  exact stC3b_in5

theorem stC3c_out4 : stC3c.neuron_output 0 4 = 1 / 2 := by
  rw [stC3c, calculate_learning_neuron_output]
  exact stC3b_out4

theorem stC3_w45 : stC3.weights 0 4 5 = 1 := by
  rw [stC3, calculate_weight_weights, if_pos ⟨by norm_num [pC3], by norm_num [pC3],
    by norm_num [pC3, EDParams.total_neurons, EDParams.size_hidden],
    by norm_num [pC3, EDParams.total_neurons, EDParams.size_hidden]⟩]
  rw [stC3c_w45]
  simp only [weightUpdateCell]
  rw [if_pos (by norm_num : (-1 : ℝ) ≠ 0),
    if_neg (by simp [pC3] : ¬pC3.flag10 = true),
    if_neg (by rw [stC3c_osc5]; norm_num : ¬stC3c.weights_oscillating 5 > 0),
    stC3c_in5, stC3c_out4, stC3c_err41, stC3c_osc5, stC3c_osc4]
  have habs : |(1 / 2 : ℝ)| = 1 / 2 := abs_of_pos (by norm_num)
  rw [habs]
  norm_num [pC3]

/-- C3 (counterexample): the sign invariant does not hold at every reachable
state when only the weight and threshold ranges are constrained to be
nonnegative.  In the run stC3 (nonnegative ranges, selective mode, but a
negative learning rate, which the claim does not exclude), after
init, forward, diffuse and one update, the weight w[0][4][5] equals 1
while polarity[5] * polarity[4] = -1: the update crossed zero and the
weight's sign no longer matches the polarity product. -/
theorem c3_counterexample :
    EDReachable pC3 stC3 ∧ 0 ≤ pC3.init_range_weight ∧ 0 ≤ pC3.init_range_threshold ∧
      0 < pC3.size_output ∧ pC3.size_input + 2 ≤ 4 ∧ 4 ≤ pC3.total_neurons + 1 ∧
      5 ≤ pC3.total_neurons + 1 ∧ stC3.weights 0 4 5 = 1 ∧
      stC3.weights_oscillating 5 * stC3.weights_oscillating 4 = -1 ∧
      stC3.weights 0 4 5 ≠ 0 ∧
      Real.sign (stC3.weights 0 4 5) ≠
        stC3.weights_oscillating 5 * stC3.weights_oscillating 4 := by
  have hreach : EDReachable pC3 stC3 :=
    EDReachable.update (EDReachable.learn tgtC3
      (EDReachable.forward patC3 (EDReachable.base rC3)))
  have hosc : stC3.weights_oscillating 5 * stC3.weights_oscillating 4 = -1 := by
    have h5 : stC3.weights_oscillating 5 = -1 := stC3c_osc5
    have h4 : stC3.weights_oscillating 4 = 1 := stC3c_osc4
    rw [h5, h4]
    norm_num
  refine ⟨hreach, by norm_num [pC3], by norm_num [pC3], by norm_num [pC3],
    by norm_num [pC3], by norm_num [pC3, EDParams.total_neurons, EDParams.size_hidden],
    by norm_num [pC3, EDParams.total_neurons, EDParams.size_hidden], stC3_w45, hosc,
    ?_, ?_⟩
  · rw [stC3_w45]
    norm_num
  · rw [stC3_w45, hosc, Real.sign_of_pos (by norm_num : (0:ℝ) < 1)]
    norm_num

/-- C3 (amended): the weight-sign invariant holds at every reachable state
provided additionally the update mode is selective (bidirectional flag
cleared) and the learning rate, bias, error amplification, weight range,
threshold range, random draws and input-pattern values are all nonnegative
(as in the program's intended configuration: random() yields values in
[0, 1) and training patterns are 0/1-valued).  Under these hypotheses every
in-range weight is zero or its sign equals
polarity[source] * polarity[target]. -/
theorem c3_sign_invariant_amended (p : EDParams) (st : EDState) (n c s : ℕ)
    (hm : p.flag10 = false) (hlr : 0 ≤ p.learning_rate) (hb : 0 ≤ p.bias)
    (hamp : 0 ≤ p.error_amplification) (hw : 0 ≤ p.init_range_weight)
    (ht : 0 ≤ p.init_range_threshold) (hreach : EDReachableNonneg p st)
    (hn : n < p.size_output) (hc1 : p.size_input + 2 ≤ c)
    (hc2 : c ≤ p.total_neurons + 1) (hs : s ≤ p.total_neurons + 1) :
    st.weights n c s = 0 ∨
      Real.sign (st.weights n c s) =
        st.weights_oscillating s * st.weights_oscillating c :=
  (reachableNonneg_good p hm hlr hb hamp hw ht st hreach).1 n c s hn hc1 hc2 hs

theorem c3_witness :
    pC3w.flag10 = false ∧ 0 ≤ pC3w.learning_rate ∧ 0 ≤ pC3w.bias ∧
      0 ≤ pC3w.error_amplification ∧ 0 ≤ pC3w.init_range_weight ∧
      0 ≤ pC3w.init_range_threshold ∧ 0 < pC3w.size_output ∧
      ((init_network pC3w rC3w zeroState).weights 0 4 2 = 0 ∨
        Real.sign ((init_network pC3w rC3w zeroState).weights 0 4 2) =
          (init_network pC3w rC3w zeroState).weights_oscillating 2 *
            (init_network pC3w rC3w zeroState).weights_oscillating 4) :=
  ⟨rfl, by norm_num [pC3w], by norm_num [pC3w], by norm_num [pC3w],
    by norm_num [pC3w], by norm_num [pC3w], by norm_num [pC3w],
    c3_sign_invariant_amended pC3w (init_network pC3w rC3w zeroState) 0 4 2 rfl
      (by norm_num [pC3w]) (by norm_num [pC3w]) (by norm_num [pC3w])
      (by norm_num [pC3w]) (by norm_num [pC3w])
      (EDReachableNonneg.base rC3w (fun a b d k => by norm_num [rC3w]))
      (by norm_num [pC3w]) (by norm_num [pC3w])
      (by norm_num [pC3w, EDParams.total_neurons, EDParams.size_hidden])
      (by norm_num [pC3w, EDParams.total_neurons, EDParams.size_hidden])⟩
